import Mathlib

/-!
Verification of the protocol core of `ms-hack-man` (src/main.rs), a line-oriented
client for a grid-based multiplayer game engine.

The Rust source is shallowly embedded here:
* `usize` values become `Nat`; `str::parse::<usize>()` becomes `parseUsize`
  (optional leading `+`, one or more ASCII digits, value below `2^64`).
* A Rust panic (`unwrap` on a failed parse, `panic!("invalid cell type!")`,
  slice index out of bounds, `chunks(0)`) aborts the process; it is modelled
  as an `Except` error with an `RtError` naming the panic class.
* `HashMap<String, Player>` is modelled as an association list with
  `insertPlayer` (replace-or-append) and `lookupPlayer`; the program only
  observes the map through lookups, so this is observationally faithful.
* `str::split` with a one-character pattern becomes `strSplit` over the
  string's character list.
-/

/-- Panic / failure classes of the Rust program. `malformedToken` stands for
every `unwrap` on a failed parse and for `panic!("invalid cell type!")`;
`indexOutOfBounds` for `Vec` indexing past the end; `chunkSizeZero` for the
panic of `chunks(0)` (with `field_width = 0` the Rust code panics either in
`index_to_coords`, by division by zero, or in `chunks(0)`; both abort the
process and are collapsed into this one class, issued whenever the width
is zero). -/
inductive RtError where
  | malformedToken
  | indexOutOfBounds
  | chunkSizeZero
deriving DecidableEq, Repr

/-- Split a character list at every occurrence of `sep`; models Rust's
`str::split` with a single-character pattern (always returns at least one
piece; adjacent separators yield empty pieces). -/
def splitChar (sep : Char) : List Char → List (List Char)
  | [] => [[]]
  | c :: cs =>
    let rest := splitChar sep cs
    if c = sep then [] :: rest
    else
      match rest with
      | [] => [[c]]
      | r :: rs => (c :: r) :: rs

/-- Rust `s.split(sep)` for a one-character separator, on Lean strings. -/
def strSplit (s : String) (sep : Char) : List String :=
  (splitChar sep s.data).map String.mk

/-- Rust `str::parse::<usize>()`: an optional leading `+`, then one or more
ASCII digits, with the value required to fit in 64 bits (on the 64-bit
targets the bot runs on). Everything else is `none`. -/
def parseUsize (s : String) : Option Nat :=
  let cs := s.data
  let ds := if cs.head? = some '+' then cs.tail else cs
  if ds.isEmpty then none
  else if ds.all Char.isDigit then
    let v := ds.foldl (fun a c => a * 10 + (c.toNat - 48)) 0
    if v < 18446744073709551616 then some v else none
  else none

/-- `parseUsize` wrapped as an `Except`; models `value.parse().unwrap()`,
whose failure panics the process. -/
def parseUsizeE (s : String) : Except RtError Nat :=
  match parseUsize s with
  | some n => .ok n
  | none => .error .malformedToken

/-- The `CellType` enum of the source, one constructor per variant. -/
inductive CellType where
  | Nothing
  | Inaccessible
  | Player (id : Nat)
  | BugSpawnPoint (rounds_before_spawn : Nat)
  | GateLeft
  | GateRight
  | Bug (ai_type : Nat)
  | Mine (rounds_before_explode : Nat)
  | PickUpMine
  | CodeSnippet
deriving DecidableEq, Repr

/-- `CellType::player_id`: the occupant index if this facet is a `Player`. -/
def CellType.player_id : CellType → Option Nat
  | .Player id => some id
  | _ => none

/-- The fall-through branch of `parse_cell_type`: Rust matches
`c.chars().nth(0).unwrap()` (panics on the empty token) and parses
`c[1..]` with `unwrap` (panics on a non-integer suffix); an unknown leading
character hits `panic!("invalid cell type!")`. -/
def parse_leading : List Char → Except RtError CellType
  | [] => .error .malformedToken
  | ch :: rest =>
    if ch = 'P' then
      match parseUsize ⟨rest⟩ with
      | some n => .ok (CellType.Player n)
      | none => .error .malformedToken
    else if ch = 'S' then
      match parseUsize ⟨rest⟩ with
      | some n => .ok (CellType.BugSpawnPoint n)
      | none => .error .malformedToken
    else if ch = 'E' then
      match parseUsize ⟨rest⟩ with
      | some n => .ok (CellType.Bug n)
      | none => .error .malformedToken
    else if ch = 'B' then
      match parseUsize ⟨rest⟩ with
      | some n => .ok (CellType.Mine n)
      | none => .error .malformedToken
    else .error .malformedToken

/-- `parse_cell_type` on the token's character list: the exact-match arms of
the Rust `match` (string equality is character-list equality), then the
leading-character fall-through. -/
def pct (l : List Char) : Except RtError CellType :=
  if l = ['.'] then .ok CellType.Nothing
  else if l = ['x'] then .ok CellType.Inaccessible
  else if l = ['S'] then .ok (CellType.BugSpawnPoint 0)
  else if l = ['G', 'l'] then .ok CellType.GateLeft
  else if l = ['G', 'r'] then .ok CellType.GateRight
  else if l = ['B'] then .ok CellType.PickUpMine
  else if l = ['C'] then .ok CellType.CodeSnippet
  else parse_leading l

/-- `fn parse_cell_type(cell_type: &str) -> CellType` (panics modelled as
errors). -/
def parse_cell_type (c : String) : Except RtError CellType := pct c.data

/-- The `Cell` struct: an ordered list of `CellType` facets. -/
structure Cell where
  types : List CellType
deriving DecidableEq, Repr

/-- `Cell::has_code_snippet`: `.find(|t| t == &CellType::CodeSnippet).is_some()`. -/
def Cell.has_code_snippet (c : Cell) : Bool :=
  (c.types.find? (fun t => decide (t = CellType.CodeSnippet))).isSome

/-- `Cell::player_ids`: `.filter_map(|t| t.player_id()).collect()`. -/
def Cell.player_ids (c : Cell) : List Nat :=
  c.types.filterMap CellType.player_id

/-- `fn parse_cell(cell: &str) -> Cell`: split on `;` and decode each
type-token, keeping facet order. -/
def parse_cell (cell : String) : Except RtError Cell :=
  match (strSplit cell ';').mapM parse_cell_type with
  | .ok ts => .ok ⟨ts⟩
  | .error e => .error e

/-- The `Settings` struct. -/
structure Settings where
  timebank : Nat
  time_per_move : Nat
  player_names : List String
  my_bot : String
  my_bot_id : Nat
  field_width : Nat
  field_height : Nat
  max_rounds : Nat
deriving DecidableEq, Repr

/-- `Settings::default()`: zero-valued / empty fields. -/
def Settings.init : Settings := ⟨0, 0, [], "", 0, 0, 0, 0⟩

/-- `Settings::update`: assign exactly the field named by `key`; numeric
values go through `parse().unwrap()` (panic on failure), unrecognized keys
are silently ignored. -/
def Settings.update (s : Settings) (key value : String) : Except RtError Settings :=
  if key = "timebank" then
    match parseUsize value with
    | some n => .ok { s with timebank := n }
    | none => .error .malformedToken
  else if key = "time_per_move" then
    match parseUsize value with
    | some n => .ok { s with time_per_move := n }
    | none => .error .malformedToken
  else if key = "player_names" then .ok { s with player_names := strSplit value ',' }
  else if key = "your_bot" then .ok { s with my_bot := value }
  else if key = "your_botid" then
    match parseUsize value with
    | some n => .ok { s with my_bot_id := n }
    | none => .error .malformedToken
  else if key = "field_width" then
    match parseUsize value with
    | some n => .ok { s with field_width := n }
    | none => .error .malformedToken
  else if key = "field_height" then
    match parseUsize value with
    | some n => .ok { s with field_height := n }
    | none => .error .malformedToken
  else if key = "max_rounds" then
    match parseUsize value with
    | some n => .ok { s with max_rounds := n }
    | none => .error .malformedToken
  else .ok s

/-- A (row, column) coordinate pair. -/
abbrev Coord := Nat × Nat

/-- `Settings::index_to_coords`: `(index / field_width, index % field_width)`. -/
def Settings.index_to_coords (s : Settings) (index : Nat) : Coord :=
  (index / s.field_width, index % s.field_width)

/-- The `Player` struct. -/
structure Player where
  snippets : Nat
  bombs : Nat
deriving DecidableEq, Repr

/-- `Player::default()`. -/
def Player.init : Player := ⟨0, 0⟩

/-- `Player::update`: assign `snippets` or `bombs`; other keys ignored. -/
def Player.update (p : Player) (key : String) (value : Nat) : Player :=
  if key = "snippets" then { p with snippets := value }
  else if key = "bombs" then { p with bombs := value }
  else p

/-- The `Field` struct of the source: the chunked grid plus the derived
indices (named `GameField` here because Mathlib already claims `Field`). -/
structure GameField where
  cells : List (List Cell)
  snippets : List Coord
  me : Coord
  others : List Coord
deriving DecidableEq, Repr

/-- `Field::default()`. -/
def GameField.init : GameField := ⟨[], [], (0, 0), []⟩

/-- Rust `slice::chunks(w)` with explicit fuel (the list length bounds the
number of chunks when `w > 0`, so the fuel-exhausted arm is unreachable in
every use). `chunks(0)` panics in Rust; callers guard that case. -/
def chunksFuel {α : Type} (w : Nat) : Nat → List α → List (List α)
  | _, [] => []
  | 0, l => [l]
  | fuel + 1, l => l.take w :: chunksFuel w fuel (l.drop w)

/-- `parsed_cells.chunks(width).map(|it| it.to_vec()).collect()`. -/
def chunksList {α : Type} (w : Nat) (l : List α) : List (List α) :=
  if w = 0 then [] else chunksFuel w l.length l

/-- One step of the inner `for id in cell.player_ids()` loop of
`parse_field`: a matching occupant overwrites `me`, any other occupant's
coordinates are pushed onto `others`. -/
def meOthersStep (st : Settings) (coord : Coord) (mo : Coord × List Coord) (id : Nat) :
    Coord × List Coord :=
  if id = st.my_bot_id then (coord, mo.2) else (mo.1, mo.2 ++ [coord])

/-- The accumulation loop of `parse_field` (`for (index, cell) in
parsed_cells.iter().enumerate()`), threading the `snippets`/`me`/`others`
accumulators. -/
def fieldScan (st : Settings) : Nat → List Cell → List Coord × Coord × List Coord →
    List Coord × Coord × List Coord
  | _, [], acc => acc
  | index, cell :: rest, (snips, me, others) =>
    let snips' := if cell.has_code_snippet then snips ++ [st.index_to_coords index] else snips
    let mo := cell.player_ids.foldl (meOthersStep st (st.index_to_coords index)) (me, others)
    fieldScan st (index + 1) rest (snips', mo.1, mo.2)

/-- `fn parse_field(settings: &Settings, field: &str) -> Field`: split on
`,`, decode every cell (a bad token panics before anything else, since the
`collect` runs first), run the accumulation loop, then chunk into rows of
`field_width`. The source performs no dimension check at all; with
`field_width = 0` the Rust code panics (division by zero or `chunks(0)`). -/
def parse_field (st : Settings) (field : String) : Except RtError GameField :=
  match (strSplit field ',').mapM parse_cell with
  | .error e => .error e
  | .ok parsed_cells =>
    let scan := fieldScan st 0 parsed_cells ([], (0, 0), [])
    if st.field_width = 0 then .error .chunkSizeZero
    else
      .ok { cells := chunksList st.field_width parsed_cells,
            snippets := scan.1, me := scan.2.1, others := scan.2.2 }

/-- `HashMap::get`, on the association-list model. -/
def lookupPlayer : List (String × Player) → String → Option Player
  | [], _ => none
  | p :: ps, k => if p.1 = k then some p.2 else lookupPlayer ps k

/-- `HashMap::insert`: replace the value at an existing key, else append. -/
def insertPlayer (m : List (String × Player)) (k : String) (v : Player) :
    List (String × Player) :=
  if m.any (fun p => decide (p.1 = k)) then
    m.map (fun p => if p.1 = k then (k, v) else p)
  else m ++ [(k, v)]

/-- The `Game` root aggregate. -/
structure Game where
  settings : Settings
  round : Nat
  field : GameField
  players : List (String × Player)
deriving DecidableEq, Repr

/-- `Game::default()`. -/
def Game.init : Game := ⟨Settings.init, 0, GameField.init, []⟩

/-- `Game::update_settings`: update the settings, then (re-)insert a default
`Player` for every name in the updated settings' `player_names` — on every
call, whatever the key was. -/
def Game.update_settings (g : Game) (key value : String) : Except RtError Game :=
  match Settings.update g.settings key value with
  | .error e => .error e
  | .ok s =>
    .ok { g with
          settings := s,
          players := s.player_names.foldl (fun m pid => insertPlayer m pid Player.init)
            g.players }

/-- `Game::update`: `game round`/`game field` update the round counter or
replace the field; any other scope is a player id whose entry is looked up
or created and updated with the parsed value (`parse().unwrap()` panics on a
non-numeric value). -/
def Game.update (g : Game) (update_type key value : String) : Except RtError Game :=
  if update_type = "game" then
    if key = "round" then
      match parseUsize value with
      | some n => .ok { g with round := n }
      | none => .error .malformedToken
    else if key = "field" then
      match parse_field g.settings value with
      | .ok f => .ok { g with field := f }
      | .error e => .error e
    else .ok g
  else
    match parseUsize value with
    | some n =>
      let old := (lookupPlayer g.players update_type).getD Player.init
      .ok { g with players := insertPlayer g.players update_type (Player.update old key n) }
    | none => .error .malformedToken

/-- The `ChooseCharacter` enum. -/
inductive ChooseCharacter where
  | Bixie
  | Bixiette
deriving DecidableEq, Repr

/-- `Display for ChooseCharacter`. -/
def chooseCharacterToString : ChooseCharacter → String
  | .Bixie => "bixie"
  | .Bixiette => "bixiette"

/-- The `Direction` enum. -/
inductive Direction where
  | Up
  | Down
  | Left
  | Right
deriving DecidableEq, Repr

/-- `Display for Direction`. -/
def directionToString : Direction → String
  | .Up => "up"
  | .Down => "down"
  | .Left => "left"
  | .Right => "right"

/-- The `Move` enum. -/
inductive Move where
  | Direction (direction : Direction)
  | DropBomb (direction : Direction) (rounds : Nat)
  | Pass
deriving DecidableEq, Repr

/-- `Display for Move`: a bare direction word, `<dir>;drop_bomb <rounds>`,
or `pass`. -/
def moveToString : Move → String
  | .Direction d => directionToString d
  | .DropBomb d rounds => directionToString d ++ ";drop_bomb " ++ Nat.repr rounds
  | .Pass => "pass"

/-- The fixed `Basic` AI: always Bixie, always Pass. -/
def Basic.action_character (_time : Nat) : ChooseCharacter := ChooseCharacter.Bixie

/-- The fixed `Basic` AI's move choice. -/
def Basic.action_move (_game : Game) (_time : Nat) : Move := Move.Pass

/-- `commands[i]`: Vec indexing, which panics past the end. -/
def idx (l : List String) (i : Nat) : Except RtError String :=
  match l.get? i with
  | some x => .ok x
  | none => .error .indexOutOfBounds

/-- One iteration of the `main` loop on an already-read line (trailing
newline removed): split on single spaces, dispatch on `commands[0]`, and
return the possibly-updated game plus the response line printed, if any.
Out-of-range indexing and failed `unwrap`s abort the process (errors here). -/
def dispatch (g : Game) (input : String) : Except RtError (Game × Option String) :=
  let commands := strSplit input ' '
  match idx commands 0 with
  | .error e => .error e
  | .ok c0 =>
    if c0 = "settings" then
      match idx commands 1 with
      | .error e => .error e
      | .ok k =>
        match idx commands 2 with
        | .error e => .error e
        | .ok v =>
          match Game.update_settings g k v with
          | .error e => .error e
          | .ok g' => .ok (g', none)
    else if c0 = "update" then
      match idx commands 1 with
      | .error e => .error e
      | .ok t =>
        match idx commands 2 with
        | .error e => .error e
        | .ok k =>
          match idx commands 3 with
          | .error e => .error e
          | .ok v =>
            match Game.update g t k v with
            | .error e => .error e
            | .ok g' => .ok (g', none)
    else if c0 = "action" then
      match idx commands 1 with
      | .error e => .error e
      | .ok sub =>
        if sub = "character" then
          match idx commands 2 with
          | .error e => .error e
          | .ok t =>
            match parseUsizeE t with
            | .error e => .error e
            | .ok time => .ok (g, some (chooseCharacterToString (Basic.action_character time)))
        else if sub = "move" then
          match idx commands 2 with
          | .error e => .error e
          | .ok t =>
            match parseUsizeE t with
            | .error e => .error e
            | .ok time => .ok (g, some (moveToString (Basic.action_move g time)))
        else .ok (g, none)
    else .ok (g, none)

/-! ### Helper lemmas: the cell-type grammar -/

theorem cons_ne_of_head {a b : Char} (l m : List Char) (h : a ≠ b) : a :: l ≠ b :: m :=
  fun he => by injection he with h1 _; exact h h1

theorem cons_ne_singleton {a b : Char} (l : List Char) (h : l ≠ []) : a :: l ≠ [b] :=
  fun he => by injection he with _ h2; exact h h2

theorem ne_nil_of_parseUsize {l : List Char} {n : Nat} (h : parseUsize ⟨l⟩ = some n) :
    l ≠ [] := by
  intro he
  subst he
  exact Option.noConfusion h

theorem pct_cons_P (l : List Char) : pct ('P' :: l) = parse_leading ('P' :: l) := by
  unfold pct
  rw [if_neg (cons_ne_of_head _ _ (by decide)), if_neg (cons_ne_of_head _ _ (by decide)),
    if_neg (cons_ne_of_head _ _ (by decide)), if_neg (cons_ne_of_head _ _ (by decide)),
    if_neg (cons_ne_of_head _ _ (by decide)), if_neg (cons_ne_of_head _ _ (by decide)),
    if_neg (cons_ne_of_head _ _ (by decide))]

theorem pct_cons_E (l : List Char) : pct ('E' :: l) = parse_leading ('E' :: l) := by
  unfold pct
  rw [if_neg (cons_ne_of_head _ _ (by decide)), if_neg (cons_ne_of_head _ _ (by decide)),
    if_neg (cons_ne_of_head _ _ (by decide)), if_neg (cons_ne_of_head _ _ (by decide)),
    if_neg (cons_ne_of_head _ _ (by decide)), if_neg (cons_ne_of_head _ _ (by decide)),
    if_neg (cons_ne_of_head _ _ (by decide))]

theorem pct_cons_S (l : List Char) (hl : l ≠ []) : pct ('S' :: l) = parse_leading ('S' :: l) := by
  unfold pct
  rw [if_neg (cons_ne_of_head _ _ (by decide)), if_neg (cons_ne_of_head _ _ (by decide)),
    if_neg (cons_ne_singleton _ hl), if_neg (cons_ne_of_head _ _ (by decide)),
    if_neg (cons_ne_of_head _ _ (by decide)), if_neg (cons_ne_of_head _ _ (by decide)),
    if_neg (cons_ne_of_head _ _ (by decide))]

theorem pct_cons_B (l : List Char) (hl : l ≠ []) : pct ('B' :: l) = parse_leading ('B' :: l) := by
  unfold pct
  rw [if_neg (cons_ne_of_head _ _ (by decide)), if_neg (cons_ne_of_head _ _ (by decide)),
    if_neg (cons_ne_of_head _ _ (by decide)), if_neg (cons_ne_of_head _ _ (by decide)),
    if_neg (cons_ne_of_head _ _ (by decide)), if_neg (cons_ne_singleton _ hl),
    if_neg (cons_ne_of_head _ _ (by decide))]

theorem parse_leading_P {l : List Char} {n : Nat} (h : parseUsize ⟨l⟩ = some n) :
    parse_leading ('P' :: l) = .ok (CellType.Player n) := by
  simp [parse_leading, h]

theorem parse_leading_S {l : List Char} {n : Nat} (h : parseUsize ⟨l⟩ = some n) :
    parse_leading ('S' :: l) = .ok (CellType.BugSpawnPoint n) := by
  simp [parse_leading, h]

theorem parse_leading_E {l : List Char} {n : Nat} (h : parseUsize ⟨l⟩ = some n) :
    parse_leading ('E' :: l) = .ok (CellType.Bug n) := by
  simp [parse_leading, h]

theorem parse_leading_B {l : List Char} {n : Nat} (h : parseUsize ⟨l⟩ = some n) :
    parse_leading ('B' :: l) = .ok (CellType.Mine n) := by
  simp [parse_leading, h]

/-! ### Claim C3: the cell-type grammar, exact matches first -/

/-- C3: cell-type decoding maps each fixed token by exact match checked
first — `.` to Empty, `x` to Blocked, `Gl`/`Gr` to the gates, `B` to the
pickup mine, `C` to the snippet, bare `S` to a spawn point with timer 0 —
and only otherwise applies the prefix rule: `P<n>` decodes to an occupant,
`S<n>` to a spawn point and `E<n>` to a hazard carrying the decoded `n`. -/
theorem c3_cell_type_grammar :
    parse_cell_type "." = .ok CellType.Nothing ∧
    parse_cell_type "x" = .ok CellType.Inaccessible ∧
    parse_cell_type "Gl" = .ok CellType.GateLeft ∧
    parse_cell_type "Gr" = .ok CellType.GateRight ∧
    parse_cell_type "B" = .ok CellType.PickUpMine ∧
    parse_cell_type "C" = .ok CellType.CodeSnippet ∧
    parse_cell_type "S" = .ok (CellType.BugSpawnPoint 0) ∧
    (∀ (s : String) (n : Nat), parseUsize s = some n →
      parse_cell_type ("P" ++ s) = .ok (CellType.Player n) ∧
      parse_cell_type ("S" ++ s) = .ok (CellType.BugSpawnPoint n) ∧
      parse_cell_type ("E" ++ s) = .ok (CellType.Bug n)) := by
  refine ⟨rfl, rfl, rfl, rfl, rfl, rfl, rfl, ?_⟩
  intro s n h
  obtain ⟨l⟩ := s
  have hl : l ≠ [] := ne_nil_of_parseUsize h
  refine ⟨?_, ?_, ?_⟩
  · show pct ('P' :: l) = _
    rw [pct_cons_P, parse_leading_P h]
  · show pct ('S' :: l) = _
    rw [pct_cons_S l hl, parse_leading_S h]
  · show pct ('E' :: l) = _
    rw [pct_cons_E, parse_leading_E h]

/-- Witness for C3 at the spec's own examples. -/
theorem c3_cell_type_grammar_witness :
    parse_cell_type "P3" = .ok (CellType.Player 3) ∧
    parse_cell_type "S7" = .ok (CellType.BugSpawnPoint 7) ∧
    parse_cell_type "E2" = .ok (CellType.Bug 2) ∧
    parse_cell_type "S" = .ok (CellType.BugSpawnPoint 0) := by
  have h := c3_cell_type_grammar
  have h3 := h.2.2.2.2.2.2.2 "3" 3 (by rfl)
  have h7 := h.2.2.2.2.2.2.2 "7" 7 (by rfl)
  have h2 := h.2.2.2.2.2.2.2 "2" 2 (by rfl)
  exact ⟨h3.1, h7.2.1, h2.2.2, h.2.2.2.2.2.2.1⟩

/-! ### Claim C10: `B<digits>` is a timed mine, bare `B` a pickup mine -/

/-- C10: a token `B` immediately followed by a decodable decimal suffix
decodes to `Mine` with that timer (the suffix is not ignored), while the
bare token `B` decodes to `PickUpMine`. -/
theorem c10_b_token_mine :
    parse_cell_type "B" = .ok CellType.PickUpMine ∧
    (∀ (s : String) (n : Nat), parseUsize s = some n →
      parse_cell_type ("B" ++ s) = .ok (CellType.Mine n)) := by
  refine ⟨rfl, ?_⟩
  intro s n h
  obtain ⟨l⟩ := s
  have hl : l ≠ [] := ne_nil_of_parseUsize h
  show pct ('B' :: l) = _
  rw [pct_cons_B l hl, parse_leading_B h]

/-- Witness for C10 at `B4` and bare `B`. -/
theorem c10_b_token_mine_witness :
    parse_cell_type "B4" = .ok (CellType.Mine 4) ∧
    parse_cell_type "B" = .ok CellType.PickUpMine :=
  ⟨(c10_b_token_mine.2 "4" 4 (by rfl)), c10_b_token_mine.1⟩

/-! ### Claim C4: malformed tokens fail the cell-type grammar -/

/-- C4: every token outside the exact-match set whose suffix after a
classification character `P`/`S`/`E`/`B` fails to parse (no digits, or
trailing garbage), or whose leading character is unrecognized, makes
cell-type decoding fail with `MalformedToken` instead of producing a value;
the error propagates to the dispatcher, where it aborts the process
(reference policy: parse failures are fatal). -/
theorem c4_malformed_tokens :
    (∀ (c : String),
      c ≠ "." → c ≠ "x" → c ≠ "S" → c ≠ "Gl" → c ≠ "Gr" → c ≠ "B" → c ≠ "C" →
      (∀ ch : Char, c.data.head? = some ch →
        (ch = 'P' ∨ ch = 'S' ∨ ch = 'E' ∨ ch = 'B') →
        parseUsize ⟨c.data.tail⟩ = none) →
      parse_cell_type c = .error RtError.malformedToken) ∧
    dispatch Game.init "update game field Q9" = .error RtError.malformedToken := by
  refine ⟨?_, rfl⟩
  intro c h1 h2 h3 h4 h5 h6 h7 hfail
  obtain ⟨l⟩ := c
  have l1 : l ≠ ['.'] := fun he => h1 (by rw [he])
  have l2 : l ≠ ['x'] := fun he => h2 (by rw [he])
  have l3 : l ≠ ['S'] := fun he => h3 (by rw [he])
  have l4 : l ≠ ['G', 'l'] := fun he => h4 (by rw [he])
  have l5 : l ≠ ['G', 'r'] := fun he => h5 (by rw [he])
  have l6 : l ≠ ['B'] := fun he => h6 (by rw [he])
  have l7 : l ≠ ['C'] := fun he => h7 (by rw [he])
  show pct l = _
  unfold pct
  rw [if_neg l1, if_neg l2, if_neg l3, if_neg l4, if_neg l5, if_neg l6, if_neg l7]
  match l, hfail with
  | [], _ => rfl
  | ch :: rest, hfail =>
    simp only [parse_leading]
    by_cases hP : ch = 'P'
    · subst hP
      have hz : parseUsize ⟨rest⟩ = none := hfail 'P' rfl (Or.inl rfl)
      rw [hz]
      rfl
    · rw [if_neg hP]
      by_cases hS : ch = 'S'
      · subst hS
        have hz : parseUsize ⟨rest⟩ = none := hfail 'S' rfl (Or.inr (Or.inl rfl))
        rw [hz]
        rfl
      · rw [if_neg hS]
        by_cases hE : ch = 'E'
        · subst hE
          have hz : parseUsize ⟨rest⟩ = none := hfail 'E' rfl (Or.inr (Or.inr (Or.inl rfl)))
          rw [hz]
          rfl
        · rw [if_neg hE]
          by_cases hB : ch = 'B'
          · subst hB
            have hz : parseUsize ⟨rest⟩ = none := hfail 'B' rfl (Or.inr (Or.inr (Or.inr rfl)))
            rw [hz]
            rfl
          · rw [if_neg hB]

/-- Witness for C4 at the spec's own examples `P`, `Q9` and `P3x`. -/
theorem c4_malformed_tokens_witness :
    parse_cell_type "P" = .error RtError.malformedToken ∧
    parse_cell_type "Q9" = .error RtError.malformedToken ∧
    parse_cell_type "P3x" = .error RtError.malformedToken := by
  have h := c4_malformed_tokens.1
  refine ⟨?_, ?_, ?_⟩
  · refine h "P" (by decide) (by decide) (by decide) (by decide) (by decide) (by decide)
      (by decide) ?_
    intro ch hch _
    cases hch
    rfl
  · refine h "Q9" (by decide) (by decide) (by decide) (by decide) (by decide) (by decide)
      (by decide) ?_
    intro ch hch hmem
    cases hch
    rcases hmem with h | h | h | h <;> exact absurd h (by decide)
  · refine h "P3x" (by decide) (by decide) (by decide) (by decide) (by decide) (by decide)
      (by decide) ?_
    intro ch hch _
    cases hch
    rfl

/-! ### Claim C9: the response encoder -/

/-- C9: the encoder renders `Pass` as exactly `pass`, a plain directional
move as exactly its lowercase direction word, a bomb-dropping move as
exactly the direction word, a semicolon, `drop_bomb`, a space and the round
count, and a character choice as exactly `bixie` or `bixiette`; the
dispatcher emits exactly one such line per action request. -/
theorem c9_response_encoder :
    moveToString Move.Pass = "pass" ∧
    moveToString (Move.Direction Direction.Up) = "up" ∧
    moveToString (Move.Direction Direction.Down) = "down" ∧
    moveToString (Move.Direction Direction.Left) = "left" ∧
    moveToString (Move.Direction Direction.Right) = "right" ∧
    (∀ (d : Direction) (r : Nat),
      moveToString (Move.DropBomb d r) = directionToString d ++ ";drop_bomb " ++ Nat.repr r) ∧
    moveToString (Move.DropBomb Direction.Right 3) = "right;drop_bomb 3" ∧
    chooseCharacterToString ChooseCharacter.Bixie = "bixie" ∧
    chooseCharacterToString ChooseCharacter.Bixiette = "bixiette" ∧
    dispatch Game.init "action move 100" = .ok (Game.init, some "pass") ∧
    dispatch Game.init "action character 100" = .ok (Game.init, some "bixie") :=
  ⟨rfl, rfl, rfl, rfl, rfl, fun _ _ => rfl, rfl, rfl, rfl, rfl, rfl⟩

/-! ### Claim C5: player creation from `player_names` and stat updates -/

/-- C5: after applying setting `player_names` with value `alice,bob`, the
players map holds a zero-valued Player for each name; a subsequent
`update alice snippets 5` sets alice's snippets to 5, leaves alice's bombs
at 0 and leaves bob's Player at its defaults. -/
theorem c5_player_names_then_snippets :
    Except.bind (Game.update_settings Game.init "player_names" "alice,bob")
      (fun g1 => Except.map
        (fun g2 => (lookupPlayer g1.players "alice", lookupPlayer g1.players "bob",
          lookupPlayer g2.players "alice", lookupPlayer g2.players "bob"))
        (Game.update g1 "alice" "snippets" "5")) =
      .ok (some ⟨0, 0⟩, some ⟨0, 0⟩, some ⟨5, 0⟩, some ⟨0, 0⟩) := rfl

/-! ### Claim C2: dispatcher behavior on unrecognized or short lines -/

/-- C2 counterexample: the claim says a line carrying fewer tokens than its
verb requires is ignored with no error; in the code, the one-token line
`settings` makes `commands[1]` panic with an index out of bounds. -/
theorem c2_short_line_counterexample :
    dispatch Game.init "settings" = .error RtError.indexOutOfBounds := rfl

/-- C2 (amended): a line whose first token is none of
`settings`/`update`/`action` is ignored — no response, no error, Game
unchanged — and so is an `action` line whose present sub-verb token is
neither `character` nor `move`; but a line with fewer tokens than its
recognized verb requires panics on Vec indexing instead of being ignored. -/
theorem c2_amended_dispatch_ignores :
    (∀ (g : Game) (input c0 : String),
      (strSplit input ' ').get? 0 = some c0 →
      c0 ≠ "settings" → c0 ≠ "update" → c0 ≠ "action" →
      dispatch g input = .ok (g, none)) ∧
    (∀ (g : Game) (input sub : String),
      (strSplit input ' ').get? 0 = some "action" →
      (strSplit input ' ').get? 1 = some sub →
      sub ≠ "character" → sub ≠ "move" →
      dispatch g input = .ok (g, none)) := by
  constructor
  · intro g input c0 h0 h1 h2 h3
    rw [List.get?_eq_getElem?] at h0
    simp [dispatch, idx, h0, h1, h2, h3]
  · intro g input sub h0 h1 hs1 hs2
    rw [List.get?_eq_getElem?] at h0 h1
    have e1 : ("action" : String) ≠ "settings" := by decide
    have e2 : ("action" : String) ≠ "update" := by decide
    simp [dispatch, idx, h0, h1, e1, e2, hs1, hs2]

/-- Witness for the amended C2: an unknown verb and an unknown action
sub-verb are both ignored on the default game. -/
theorem c2_amended_dispatch_ignores_witness :
    dispatch Game.init "foo bar" = .ok (Game.init, none) ∧
    dispatch Game.init "action ping 1" = .ok (Game.init, none) :=
  ⟨c2_amended_dispatch_ignores.1 Game.init "foo bar" "foo" rfl (by decide) (by decide)
      (by decide),
    c2_amended_dispatch_ignores.2 Game.init "action ping 1" "ping" rfl rfl (by decide)
      (by decide)⟩

/-! ### Helper lemmas: the player map -/

theorem lookupPlayer_map_replace (m : List (String × Player)) (k : String) (v : Player) :
    lookupPlayer (m.map (fun p => if p.1 = k then (k, v) else p)) k =
      (lookupPlayer m k).map (fun _ => v) := by
  induction m with
  | nil => rfl
  | cons p ps ih =>
    by_cases hp : p.1 = k
    · simp [lookupPlayer, hp]
    · simp [lookupPlayer, hp, ih]

theorem lookupPlayer_map_replace_other (m : List (String × Player)) (k : String) (v : Player)
    (k' : String) (h : k' ≠ k) :
    lookupPlayer (m.map (fun p => if p.1 = k then (k, v) else p)) k' = lookupPlayer m k' := by
  induction m with
  | nil => rfl
  | cons p ps ih =>
    by_cases hp : p.1 = k
    · have hk : ¬(k = k') := fun he => h he.symm
      have hp' : ¬(p.1 = k') := by rw [hp]; exact hk
      simp [lookupPlayer, hp, hk, hp', ih]
    · by_cases hp' : p.1 = k'
      · simp [lookupPlayer, hp, hp', h]
      · simp [lookupPlayer, hp, hp', ih]

theorem lookupPlayer_none_of_any_false (m : List (String × Player)) (k : String)
    (h : m.any (fun p => decide (p.1 = k)) = false) : lookupPlayer m k = none := by
  induction m with
  | nil => rfl
  | cons p ps ih =>
    simp only [List.any_cons, Bool.or_eq_false_iff] at h
    have hp : ¬(p.1 = k) := by
      intro he
      rw [he] at h
      simp at h
    simp [lookupPlayer, hp, ih h.2]

theorem lookupPlayer_isSome_of_any (m : List (String × Player)) (k : String)
    (h : m.any (fun p => decide (p.1 = k)) = true) : (lookupPlayer m k).isSome := by
  induction m with
  | nil => simp at h
  | cons p ps ih =>
    by_cases hp : p.1 = k
    · simp [lookupPlayer, hp]
    · simp only [List.any_cons, Bool.or_eq_true_iff] at h
      rcases h with h | h
    
      · simp [hp] at h
      · simp [lookupPlayer, hp, ih h]

theorem lookupPlayer_append_of_none (m1 m2 : List (String × Player)) (k : String)
    (h : lookupPlayer m1 k = none) : lookupPlayer (m1 ++ m2) k = lookupPlayer m2 k := by
  induction m1 with
  | nil => rfl
  | cons p ps ih =>
    by_cases hp : p.1 = k
    · simp [lookupPlayer, hp] at h
    · simp only [lookupPlayer, hp] at h
      simp [lookupPlayer, hp, ih h]

theorem lookupPlayer_insertPlayer_self (m : List (String × Player)) (k : String) (v : Player) :
    lookupPlayer (insertPlayer m k v) k = some v := by
  unfold insertPlayer
  by_cases hany : m.any (fun p => decide (p.1 = k)) = true
  · rw [if_pos hany, lookupPlayer_map_replace]
    have := lookupPlayer_isSome_of_any m k hany
    cases hm : lookupPlayer m k with
    | none => rw [hm] at this; simp at this
    | some w => rfl
  · have hfalse : m.any (fun p => decide (p.1 = k)) = false := by
      cases hb : m.any (fun p => decide (p.1 = k)) with
      | false => rfl
      | true => exact absurd hb hany
    rw [if_neg hany, lookupPlayer_append_of_none _ _ _
      (lookupPlayer_none_of_any_false m k hfalse)]
    simp [lookupPlayer]

theorem lookupPlayer_append_single_other (m : List (String × Player)) (k : String) (v : Player)
    (k' : String) (h : ¬(k = k')) :
    lookupPlayer (m ++ [(k, v)]) k' = lookupPlayer m k' := by
  induction m with
  | nil => simp [lookupPlayer, h]
  | cons p ps ih =>
    by_cases hp : p.1 = k'
    · simp [lookupPlayer, hp]
    · simp [lookupPlayer, hp, ih]

theorem lookupPlayer_insertPlayer_other (m : List (String × Player)) (k : String) (v : Player)
    (k' : String) (h : k' ≠ k) :
    lookupPlayer (insertPlayer m k v) k' = lookupPlayer m k' := by
  unfold insertPlayer
  by_cases hany : m.any (fun p => decide (p.1 = k)) = true
  · rw [if_pos hany, lookupPlayer_map_replace_other _ _ _ _ h]
  · rw [if_neg hany, lookupPlayer_append_single_other _ _ _ _ (fun he => h he.symm)]

theorem lookup_foldl_insert (names : List String) (k : String) : ∀ m : List (String × Player),
    (k ∈ names ∨ lookupPlayer m k = some Player.init) →
    lookupPlayer (names.foldl (fun m pid => insertPlayer m pid Player.init) m) k =
      some Player.init := by
  induction names with
  | nil =>
    intro m h
    rcases h with h | h
    · exact absurd h (List.not_mem_nil k)
    · exact h
  | cons pid names ih =>
    intro m h
    rw [List.foldl_cons]
    refine ih (insertPlayer m pid Player.init) ?_
    by_cases hk : k = pid
    · right
      rw [hk]
      exact lookupPlayer_insertPlayer_self m pid Player.init
    · rcases h with h | h
      · rcases List.mem_cons.mp h with h | h
        · exact absurd h hk
        · exact Or.inl h
      · right
        rw [lookupPlayer_insertPlayer_other m pid Player.init k hk]
        exact h

/-! ### Claim C6: every settings line resets all named players -/

/-- C6: every successful `Game::update_settings` call — whatever the key —
re-inserts a default Player (snippets 0, bombs 0) for every name listed in
the updated settings' `player_names`, overwriting any accumulated stats; so
any settings line received after per-player updates zeroes all named
players. -/
theorem c6_update_settings_resets_players (g : Game) (key value : String) (g' : Game)
    (h : Game.update_settings g key value = .ok g')
    (name : String) (hname : name ∈ g'.settings.player_names) :
    lookupPlayer g'.players name = some ⟨0, 0⟩ := by
  unfold Game.update_settings at h
  cases hs : Settings.update g.settings key value with
  | error e =>
    rw [hs] at h
    exact Except.noConfusion h
  | ok s =>
    rw [hs] at h
    injection h with h2
    subst h2
    exact lookup_foldl_insert s.player_names name g.players (Or.inl hname)

/-- A game mid-play: names announced, stats already accumulated. -/
def gC6 : Game :=
  ⟨⟨0, 0, ["alice", "bob"], "alice", 0, 4, 4, 100⟩, 7, GameField.init,
    [("alice", ⟨5, 2⟩), ("bob", ⟨1, 1⟩)]⟩

/-- The game after one more (unrelated) settings line. -/
def gC6' : Game :=
  match Game.update_settings gC6 "timebank" "100" with
  | .ok g => g
  | .error _ => Game.init

/-- Witness for C6: a `timebank` settings line wipes alice's accumulated
stats back to the defaults. -/
theorem c6_update_settings_resets_players_witness :
    lookupPlayer gC6'.players "alice" = some ⟨0, 0⟩ :=
  c6_update_settings_resets_players gC6 "timebank" "100" gC6' rfl "alice" (by decide)

/-! ### Helper lemmas: chunking -/

theorem chunksFuel_nil {α : Type} (w fuel : Nat) : chunksFuel (α := α) w fuel [] = [] := by
  cases fuel <;> rfl

theorem chunksFuel_full {α : Type} (w : Nat) (hw : 0 < w) :
    ∀ (k fuel : Nat) (l : List α), l.length = k * w → l.length ≤ fuel →
      (chunksFuel w fuel l).length = k ∧ (∀ r ∈ chunksFuel w fuel l, r.length = w) ∧
        (chunksFuel w fuel l).flatten = l := by
  intro k
  induction k with
  | zero =>
    intro fuel l hlen _
    have hl : l = [] := List.length_eq_zero.mp (by omega)
    subst hl
    rw [chunksFuel_nil]
    exact ⟨rfl, fun r hr => absurd hr (List.not_mem_nil r), rfl⟩
  | succ k ih =>
    intro fuel l hlen hfuel
    have hwle : w ≤ l.length := by
      rw [hlen, Nat.succ_mul]
      omega
    obtain ⟨x, xs, rfl⟩ : ∃ x xs, l = x :: xs := by
      cases l with
      | nil => simp at hwle; omega
      | cons x xs => exact ⟨x, xs, rfl⟩
    obtain ⟨f, rfl⟩ : ∃ f, fuel = f + 1 := by
      cases fuel with
      | zero => simp at hfuel
      | succ f => exact ⟨f, rfl⟩
    have hstep : chunksFuel w (f + 1) (x :: xs) =
        (x :: xs).take w :: chunksFuel w f ((x :: xs).drop w) := rfl
    have hdlen : ((x :: xs).drop w).length = k * w := by
      rw [List.length_drop, hlen, Nat.succ_mul]
      omega
    have hdfuel : ((x :: xs).drop w).length ≤ f := by
      rw [hdlen]
      have : (x :: xs).length ≤ f + 1 := hfuel
      rw [hlen, Nat.succ_mul] at this
      omega
    obtain ⟨ihl, ihr, ihj⟩ := ih f ((x :: xs).drop w) hdlen hdfuel
    refine ⟨?_, ?_, ?_⟩
    · rw [hstep, List.length_cons, ihl]
    · intro r hr
      rw [hstep] at hr
      rcases List.mem_cons.mp hr with hr | hr
      · rw [hr, List.length_take]
        omega
      · exact ihr r hr
    · rw [hstep, List.flatten_cons, ihj, List.take_append_drop]

theorem chunksFuel_ragged {α : Type} (w r : Nat) (hw : 0 < w) (hr0 : 0 < r) (hrw : r < w) :
    ∀ (k fuel : Nat) (l : List α), l.length = k * w + r → l.length ≤ fuel →
      (chunksFuel w fuel l).length = k + 1 ∧ (chunksFuel w fuel l).flatten = l ∧
        (chunksFuel w fuel l).getLast? = some (l.drop (k * w)) := by
  intro k
  induction k with
  | zero =>
    intro fuel l hlen hfuel
    obtain ⟨x, xs, rfl⟩ : ∃ x xs, l = x :: xs := by
      cases l with
      | nil => simp at hlen; omega
      | cons x xs => exact ⟨x, xs, rfl⟩
    obtain ⟨f, rfl⟩ : ∃ f, fuel = f + 1 := by
      cases fuel with
      | zero => simp at hfuel
      | succ f => exact ⟨f, rfl⟩
    have hdrop : (x :: xs).drop w = [] := List.drop_eq_nil_of_le (by omega)
    have htake : (x :: xs).take w = x :: xs := List.take_of_length_le (by omega)
    have hstep : chunksFuel w (f + 1) (x :: xs) =
        (x :: xs).take w :: chunksFuel w f ((x :: xs).drop w) := rfl
    rw [hstep, hdrop, chunksFuel_nil, htake]
    refine ⟨rfl, by simp, ?_⟩
    simp
  | succ k ih =>
    intro fuel l hlen hfuel
    have hwle : w ≤ l.length := by
      rw [hlen, Nat.succ_mul]
      omega
    obtain ⟨x, xs, rfl⟩ : ∃ x xs, l = x :: xs := by
      cases l with
      | nil => simp at hwle; omega
      | cons x xs => exact ⟨x, xs, rfl⟩
    obtain ⟨f, rfl⟩ : ∃ f, fuel = f + 1 := by
      cases fuel with
      | zero => simp at hfuel
      | succ f => exact ⟨f, rfl⟩
    have hstep : chunksFuel w (f + 1) (x :: xs) =
        (x :: xs).take w :: chunksFuel w f ((x :: xs).drop w) := rfl
    have hdlen : ((x :: xs).drop w).length = k * w + r := by
      rw [List.length_drop, hlen, Nat.succ_mul]
      omega
    have hdfuel : ((x :: xs).drop w).length ≤ f := by
      rw [hdlen]
      have : (x :: xs).length ≤ f + 1 := hfuel
      rw [hlen, Nat.succ_mul] at this
      omega
    obtain ⟨ihl, ihj, ihlast⟩ := ih f ((x :: xs).drop w) hdlen hdfuel
    refine ⟨by rw [hstep, List.length_cons, ihl], ?_, ?_⟩
    · rw [hstep, List.flatten_cons, ihj, List.take_append_drop]
    · rw [hstep]
      cases hrest : chunksFuel w f ((x :: xs).drop w) with
      | nil => rw [hrest] at ihl; simp at ihl
      | cons c cs =>
        rw [hrest] at ihlast
        rw [List.getLast?_cons_cons, ihlast, List.drop_drop]
        have h2 : w + k * w = (k + 1) * w := by
          rw [Nat.succ_mul, Nat.add_comm]
        rw [h2]

/-- Successful field decode, unfolded: when every cell parses and the width
is nonzero, `parse_field` returns the chunked rows plus the scan results. -/
theorem parse_field_ok (st : Settings) (s : String) (cs : List Cell)
    (hw : st.field_width ≠ 0)
    (h : (strSplit s ',').mapM parse_cell = .ok cs) :
    parse_field st s =
      .ok ⟨chunksList st.field_width cs,
        (fieldScan st 0 cs ([], (0, 0), [])).1,
        (fieldScan st 0 cs ([], (0, 0), [])).2.1,
        (fieldScan st 0 cs ([], (0, 0), [])).2.2⟩ := by
  simp only [parse_field, h]
  rw [if_neg hw]

/-! ### Claim C7: row grouping and facet order on well-sized fields -/

/-- C7: for a positive width `w` and a flat field string of `k * w` cells
that all decode, the decoded field has exactly `k` rows of exactly `w`
cells each, in input order (their concatenation is the flat cell sequence);
and a cell token like `P1;C` keeps all its semicolon-separated facets in
token order. -/
theorem c7_field_rows (st : Settings) (s : String) (k : Nat) (cs : List Cell)
    (hw : 0 < st.field_width)
    (hcs : (strSplit s ',').mapM parse_cell = .ok cs)
    (hlen : cs.length = k * st.field_width) :
    (∃ f, parse_field st s = .ok f ∧ f.cells.length = k ∧
      (∀ row ∈ f.cells, row.length = st.field_width) ∧ f.cells.flatten = cs) ∧
    parse_cell "P1;C" = .ok ⟨[CellType.Player 1, CellType.CodeSnippet]⟩ := by
  refine ⟨?_, rfl⟩
  have hw' : st.field_width ≠ 0 := by omega
  obtain ⟨h1, h2, h3⟩ := chunksFuel_full st.field_width hw k cs.length cs hlen le_rfl
  refine ⟨_, parse_field_ok st s cs hw' hcs, ?_, ?_, ?_⟩
  · show (chunksList st.field_width cs).length = k
    simp only [chunksList]
    rw [if_neg hw']
    exact h1
  · show ∀ row ∈ chunksList st.field_width cs, row.length = st.field_width
    simp only [chunksList]
    rw [if_neg hw']
    exact h2
  · show (chunksList st.field_width cs).flatten = cs
    simp only [chunksList]
    rw [if_neg hw']
    exact h3

/-- Settings with width 3 for the C7 witness (the spec's own example). -/
def stC7 : Settings := ⟨0, 0, [], "", 0, 3, 2, 0⟩

/-- The six decoded cells of `.,.,.,x,x,x`. -/
def csC7 : List Cell :=
  [⟨[CellType.Nothing]⟩, ⟨[CellType.Nothing]⟩, ⟨[CellType.Nothing]⟩,
    ⟨[CellType.Inaccessible]⟩, ⟨[CellType.Inaccessible]⟩, ⟨[CellType.Inaccessible]⟩]

/-- Witness for C7: `.,.,.,x,x,x` at width 3 gives 2 rows of 3 cells. -/
theorem c7_field_rows_witness :
    (∃ f, parse_field stC7 ".,.,.,x,x,x" = .ok f ∧ f.cells.length = 2 ∧
      (∀ row ∈ f.cells, row.length = stC7.field_width) ∧ f.cells.flatten = csC7) ∧
    parse_cell "P1;C" = .ok ⟨[CellType.Player 1, CellType.CodeSnippet]⟩ :=
  c7_field_rows stC7 ".,.,.,x,x,x" 2 csC7 (by decide) rfl (by decide)

/-! ### Claim C1: no dimension check in field decoding -/

/-- Settings with width 3 (and the default zero height, which `parse_field`
never reads). -/
def stC1 : Settings := ⟨0, 0, [], "", 0, 3, 0, 0⟩

/-- C1 counterexample: the claim says decoding the 5-cell string
`.,.,.,.,.` at width 3 fails with `DimensionMismatch` and that decoding
never yields a last row shorter than the width; the code succeeds and
returns a 2-cell last row. -/
theorem c1_dimension_counterexample :
    parse_field stC1 ".,.,.,.,." =
      .ok ⟨[[⟨[CellType.Nothing]⟩, ⟨[CellType.Nothing]⟩, ⟨[CellType.Nothing]⟩],
        [⟨[CellType.Nothing]⟩, ⟨[CellType.Nothing]⟩]], [], (0, 0), []⟩ := rfl

/-- C1 (amended): field decoding performs no dimension check. For a
positive width `w` and any flat string whose cells all decode, decoding
succeeds even when the cell count `k * w + r` (with `0 < r < w`) is not a
multiple of `w`; the rows still concatenate to the flat cell sequence, but
the last row is short — its length is the remainder `r < w`. -/
theorem c1_amended_no_dimension_check (st : Settings) (s : String) (cs : List Cell)
    (k r : Nat) (hw : 0 < st.field_width)
    (hcs : (strSplit s ',').mapM parse_cell = .ok cs)
    (hlen : cs.length = k * st.field_width + r)
    (hr0 : 0 < r) (hrw : r < st.field_width) :
    ∃ f last, parse_field st s = .ok f ∧ f.cells.length = k + 1 ∧
      f.cells.flatten = cs ∧ f.cells.getLast? = some last ∧
      last.length = r ∧ last.length < st.field_width := by
  have hw' : st.field_width ≠ 0 := by omega
  obtain ⟨h1, h2, h3⟩ :=
    chunksFuel_ragged st.field_width r hw hr0 hrw k cs.length cs hlen le_rfl
  refine ⟨_, cs.drop (k * st.field_width), parse_field_ok st s cs hw' hcs, ?_, ?_, ?_, ?_, ?_⟩
  · show (chunksList st.field_width cs).length = k + 1
    simp only [chunksList]
    rw [if_neg hw']
    exact h1
  · show (chunksList st.field_width cs).flatten = cs
    simp only [chunksList]
    rw [if_neg hw']
    exact h2
  · show (chunksList st.field_width cs).getLast? = some (cs.drop (k * st.field_width))
    simp only [chunksList]
    rw [if_neg hw']
    exact h3
  · rw [List.length_drop, hlen]
    omega
  · rw [List.length_drop, hlen]
    omega

/-- Witness for the amended C1 at the spec's own 5-cell example: decoding
succeeds with a 2-cell last row. -/
theorem c1_amended_no_dimension_check_witness :
    ∃ f last, parse_field stC1 ".,.,.,.,." = .ok f ∧ f.cells.length = 1 + 1 ∧
      f.cells.flatten = [⟨[CellType.Nothing]⟩, ⟨[CellType.Nothing]⟩, ⟨[CellType.Nothing]⟩,
        ⟨[CellType.Nothing]⟩, ⟨[CellType.Nothing]⟩] ∧
      f.cells.getLast? = some last ∧ last.length = 2 ∧ last.length < stC1.field_width :=
  c1_amended_no_dimension_check stC1 ".,.,.,.,."
    [⟨[CellType.Nothing]⟩, ⟨[CellType.Nothing]⟩, ⟨[CellType.Nothing]⟩,
      ⟨[CellType.Nothing]⟩, ⟨[CellType.Nothing]⟩]
    1 2 (by decide) rfl (by decide) (by decide) (by decide)

/-! ### Helper lemmas: the field accumulation loop -/

theorem meOthersFold (st : Settings) (coord : Coord) :
    ∀ (ids : List Nat) (m : Coord) (o : List Coord),
      ids.foldl (meOthersStep st coord) (m, o) =
        ((if st.my_bot_id ∈ ids then coord else m),
          o ++ (ids.filter (fun id => decide (id ≠ st.my_bot_id))).map (fun _ => coord)) := by
  intro ids
  induction ids with
  | nil =>
    intro m o
    simp
  | cons id ids ih =>
    intro m o
    by_cases h : id = st.my_bot_id
    · subst h
      simp only [List.foldl_cons, meOthersStep, if_pos rfl]
      rw [ih]
      simp
    · have h' : ¬(st.my_bot_id = id) := fun he => h he.symm
      simp only [List.foldl_cons, meOthersStep, if_neg h]
      rw [ih]
      simp [List.mem_cons, h, h', List.filter_cons, List.append_assoc]

/-- The `me` accumulator's update for one enumerated cell: a cell holding
the bot's occupant facet overwrites `me` with that cell's coordinates. -/
def meUpd (st : Settings) (m : Coord) (p : Nat × Cell) : Coord :=
  if st.my_bot_id ∈ p.2.player_ids then st.index_to_coords p.1 else m

theorem fieldScan_spec (st : Settings) :
    ∀ (cs : List Cell) (i : Nat) (s0 : List Coord) (m0 : Coord) (o0 : List Coord),
      fieldScan st i cs (s0, m0, o0) =
        (s0 ++ ((cs.enumFrom i).filter (fun p => p.2.has_code_snippet)).map
            (fun p => st.index_to_coords p.1),
          (cs.enumFrom i).foldl (meUpd st) m0,
          o0 ++ (cs.enumFrom i).flatMap (fun p =>
            (p.2.player_ids.filter (fun id => decide (id ≠ st.my_bot_id))).map
              (fun _ => st.index_to_coords p.1))) := by
  intro cs
  induction cs with
  | nil =>
    intro i s0 m0 o0
    simp [fieldScan, List.enumFrom]
  | cons cell rest ih =>
    intro i s0 m0 o0
    simp only [fieldScan]
    rw [meOthersFold st (st.index_to_coords i) cell.player_ids m0 o0]
    rw [ih]
    have henum : List.enumFrom i (cell :: rest) = (i, cell) :: List.enumFrom (i + 1) rest := rfl
    rw [henum]
    cases hs : cell.has_code_snippet with
    | true =>
      simp [meUpd, hs, List.filter_cons, List.flatMap_cons, List.append_assoc]
    | false =>
      simp [meUpd, hs, List.filter_cons, List.flatMap_cons, List.append_assoc]

theorem meUpd_foldl_none (st : Settings) :
    ∀ (pairs : List (Nat × Cell)) (m0 : Coord),
      (∀ p ∈ pairs, st.my_bot_id ∉ p.2.player_ids) →
      pairs.foldl (meUpd st) m0 = m0 := by
  intro pairs
  induction pairs with
  | nil =>
    intro m0 _
    rfl
  | cons p ps ih =>
    intro m0 h
    rw [List.foldl_cons]
    have hstep : meUpd st m0 p = m0 := by
      simp [meUpd, h p (List.mem_cons_self p ps)]
    rw [hstep]
    exact ih m0 (fun q hq => h q (List.mem_cons_of_mem p hq))

theorem meUpd_foldl_unique (st : Settings) (i : Nat) :
    ∀ (pairs : List (Nat × Cell)) (m0 : Coord),
      (∃ p, p ∈ pairs ∧ p.1 = i ∧ st.my_bot_id ∈ p.2.player_ids) →
      (∀ p ∈ pairs, st.my_bot_id ∈ p.2.player_ids → p.1 = i) →
      pairs.foldl (meUpd st) m0 = st.index_to_coords i := by
  intro pairs
  induction pairs with
  | nil =>
    intro m0 hex _
    obtain ⟨p, hp, _⟩ := hex
    exact absurd hp (List.not_mem_nil p)
  | cons p ps ih =>
    intro m0 hex huniq
    rw [List.foldl_cons]
    by_cases hm : st.my_bot_id ∈ p.2.player_ids
    · have hpi : p.1 = i := huniq p (List.mem_cons_self p ps) hm
      have hstep : meUpd st m0 p = st.index_to_coords i := by
        simp [meUpd, hm, hpi]
      rw [hstep]
      by_cases hex2 : ∃ q, q ∈ ps ∧ st.my_bot_id ∈ q.2.player_ids
      · obtain ⟨q, hq, hqm⟩ := hex2
        exact ih (st.index_to_coords i)
          ⟨q, hq, huniq q (List.mem_cons_of_mem p hq) hqm, hqm⟩
          (fun q hq hqm => huniq q (List.mem_cons_of_mem p hq) hqm)
      · push_neg at hex2
        exact meUpd_foldl_none st ps (st.index_to_coords i) hex2
    · obtain ⟨q, hq, hqi, hqm⟩ := hex
      rcases List.mem_cons.mp hq with hq | hq
      · rw [hq] at hqm
        exact absurd hqm hm
      · have hstep : meUpd st m0 p = m0 := by simp [meUpd, hm]
        rw [hstep]
        exact ih m0 ⟨q, hq, hqi, hqm⟩
          (fun q hq hqm => huniq q (List.mem_cons_of_mem p hq) hqm)

/-! ### Claim C8: the derived indices of field decoding -/

/-- C8: during field decoding with width `w`, flat index `i` becomes the
coordinate pair `(i / w, i % w)`: the coordinates of every cell containing
a snippet facet accumulate into `snippets` in order, the coordinates of
every occupant facet with an index other than the bot's accumulate into
`others`, and the coordinates of the (unique) cell carrying the bot's own
occupant index become `me`. -/
theorem c8_derived_indices (st : Settings) (s : String) (cs : List Cell)
    (i : Nat) (c : Cell)
    (hw : 0 < st.field_width)
    (hcs : (strSplit s ',').mapM parse_cell = .ok cs)
    (hocc : (i, c) ∈ cs.enum)
    (hmine : st.my_bot_id ∈ c.player_ids)
    (huniq : ∀ p ∈ cs.enum, st.my_bot_id ∈ p.2.player_ids → p.1 = i) :
    ∃ f, parse_field st s = .ok f ∧
      f.snippets = (cs.enum.filter (fun p => p.2.has_code_snippet)).map
        (fun p => (p.1 / st.field_width, p.1 % st.field_width)) ∧
      f.others = cs.enum.flatMap (fun p =>
        (p.2.player_ids.filter (fun id => decide (id ≠ st.my_bot_id))).map
          (fun _ => (p.1 / st.field_width, p.1 % st.field_width))) ∧
      f.me = (i / st.field_width, i % st.field_width) := by
  simp only [List.enum] at hocc huniq
  refine ⟨_, parse_field_ok st s cs (by omega) hcs, ?_, ?_, ?_⟩
  · show (fieldScan st 0 cs ([], (0, 0), [])).1 = _
    rw [fieldScan_spec st cs 0 [] (0, 0) []]
    simp [List.enum, Settings.index_to_coords]
  · show (fieldScan st 0 cs ([], (0, 0), [])).2.2 = _
    rw [fieldScan_spec st cs 0 [] (0, 0) []]
    simp [List.enum, Settings.index_to_coords]
  · show (fieldScan st 0 cs ([], (0, 0), [])).2.1 = _
    rw [fieldScan_spec st cs 0 [] (0, 0) []]
    rw [meUpd_foldl_unique st i (cs.enumFrom 0) (0, 0) ⟨(i, c), hocc, rfl, hmine⟩ huniq]
    rfl

/-- Settings for the C8 witness: width 2, the bot is occupant 0. -/
def stC8 : Settings := ⟨0, 0, [], "", 0, 2, 2, 0⟩

/-- The four decoded cells of `C,P0,P1,.`. -/
def csC8 : List Cell :=
  [⟨[CellType.CodeSnippet]⟩, ⟨[CellType.Player 0]⟩, ⟨[CellType.Player 1]⟩,
    ⟨[CellType.Nothing]⟩]

/-- Witness for C8: in `C,P0,P1,.` at width 2 the snippet lands at (0, 0),
the bot (occupant 0, flat index 1) at (0, 1), the opponent at (1, 0). -/
theorem c8_derived_indices_witness :
    ∃ f, parse_field stC8 "C,P0,P1,." = .ok f ∧
      f.snippets = (csC8.enum.filter (fun p => p.2.has_code_snippet)).map
        (fun p => (p.1 / stC8.field_width, p.1 % stC8.field_width)) ∧
      f.others = csC8.enum.flatMap (fun p =>
        (p.2.player_ids.filter (fun id => decide (id ≠ stC8.my_bot_id))).map
          (fun _ => (p.1 / stC8.field_width, p.1 % stC8.field_width))) ∧
      f.me = (1 / stC8.field_width, 1 % stC8.field_width) :=
  c8_derived_indices stC8 "C,P0,P1,." csC8 1 ⟨[CellType.Player 0]⟩ (by decide) rfl
    (by decide) (by decide) (by decide)
